import Mathlib

/-
Verification of the peak-detection and significance-classification core of
the Praesepe_K2 repository (c5_analysis.py and c5_k2sff_analysis.py).
Floating-point values are embedded as exact rationals; numpy arrays as lists.
-/

namespace PraesepeK2

/-- Value of `data.take(j, mode="clip")` for a 1-D array: the index is clipped
to `[0, len-1]`.  For an out-of-range `j` this returns the boundary element;
for `j < len` it is just `power[j]`.  (Nat subtraction already clips at 0, so
only the upper clip is explicit.) -/
def takeClip (power : List ℚ) (j : ℕ) : ℚ :=
  power.getD (min j (power.length - 1)) 0

/-- One entry of the boolean result array of
`scipy.signal.argrelextrema(power, np.greater, order)` with the default
`mode="clip"`: index `i` survives iff for every shift `s+1` in `1..order`,
`power[i]` is strictly greater than the clipped neighbours at `i+(s+1)` and
`i-(s+1)`. -/
def relMaxAt (power : List ℚ) (order i : ℕ) : Bool :=
  (List.range order).all fun s =>
    decide (takeClip power (i + (s + 1)) < takeClip power i) &&
    decide (takeClip power (i - (s + 1)) < takeClip power i)

/-- Embedding of `scipy.signal.argrelextrema(periodogram, np.greater, order=100)`
as called at c5_analysis.py:160 and c5_k2sff_analysis.py:134: the (sorted) list
of indices whose entry is a strict relative maximum in clip mode. -/
def argrelextrema (power : List ℚ) (order : ℕ) : List ℕ :=
  (List.range power.length).filter (relMaxAt power order)

/-- Maximum value of a nonempty list (`max(periodogram)` / the value located by
`np.argmax`); 0 for the empty list, which never occurs on the used paths. -/
def maxOf : List ℚ → ℚ
  | [] => 0
  | [x] => x
  | x :: y :: xs => max x (maxOf (y :: xs))

/-- Embedding of `np.argmax`: the first index at which the maximum value of the
array occurs. -/
def npArgmax (l : List ℚ) : ℕ :=
  l.indexOf (maxOf l)

/-- Boolean-mask fancy indexing `arr[mask]` of numpy: keep the entries whose
mask entry is true, in order. -/
def maskSelect {α : Type} : List α → List Bool → List α
  | [], _ => []
  | _ :: _, [] => []
  | x :: xs, b :: bs => if b then x :: maskSelect xs bs else maskSelect xs bs

/-- Integer-array fancy indexing `arr[idxs]` of numpy. -/
def fancyIndex (arr : List ℚ) (idxs : List ℕ) : List ℚ :=
  idxs.map fun i => arr.getD i 0

/-- Significance filter on peak locations.  With `bound = none` this is
`peak_locs[periodogram[peak_locs] > sigmas[0]]` (c5_analysis.py:164); with
`bound = some b` it is
`peak_locs[(periodogram[peak_locs] > sigmas[0]) & (periods_to_test[peak_locs] < b)]`
with `b = 35` (c5_k2sff_analysis.py:139-140). -/
def sigLocs (locs : List ℕ) (power periods : List ℚ) (sigma : ℚ)
    (bound : Option ℚ) : List ℕ :=
  match bound with
  | none =>
      maskSelect locs ((fancyIndex power locs).map fun w => decide (sigma < w))
  | some b =>
      maskSelect locs
        (((fancyIndex power locs).zip (fancyIndex periods locs)).map
          fun pw => decide (sigma < pw.1) && decide (pw.2 < b))

/-- Pointwise keep-predicate the significance filter implements. -/
def sigPred (power periods : List ℚ) (sigma : ℚ) (bound : Option ℚ)
    (i : ℕ) : Bool :=
  decide (sigma < power.getD i 0) &&
    (match bound with
     | none => true
     | some b => decide (periods.getD i 0 < b))

/-- Primary and secondary significant peak selected by `run_one`. -/
structure RankResult where
  msPeriod : ℚ
  msPower : ℚ
  secPeriod : ℚ
  secPower : ℚ
deriving Repr, DecidableEq

/-- Peak ranking of `run_one` (c5_analysis.py:178-203,
c5_k2sff_analysis.py:154-170): primary = peak of maximal power (first index on
ties, via `np.argmax`); secondary = maximal-power peak after `np.delete` of the
primary; sentinel -9999 when fewer than one/two significant peaks exist. -/
def rankPeaks (sigPeriods sigPowers : List ℚ) : RankResult :=
  if 0 < sigPowers.length then
    let m := npArgmax sigPowers
    let msP := sigPeriods.getD m 0
    let msW := sigPowers.getD m 0
    if 1 < sigPowers.length then
      let trimPeriods := sigPeriods.eraseIdx m
      let trimPowers := sigPowers.eraseIdx m
      let s := npArgmax trimPowers
      ⟨msP, msW, trimPeriods.getD s 0, trimPowers.getD s 0⟩
    else
      ⟨msP, msW, -9999, -9999⟩
  else
    ⟨-9999, -9999, -9999, -9999⟩

/-- Harmonic-type tag: the strings "-", "half", "dbl", "half-maybe",
"dbl-maybe" of the source as a closed variant type. -/
inductive HarmType where
  | none
  | half
  | halfMaybe
  | dbl
  | dblMaybe
deriving Repr, DecidableEq

/-- Appending "-maybe" to an assigned harmonic tag. -/
def addMaybe : HarmType → HarmType
  | HarmType.half => HarmType.halfMaybe
  | HarmType.dbl => HarmType.dblMaybe
  | h => h

/-- Exact rational value of the IEEE binary64 double stored for the source's
literal `0.05`: 3602879701896397 / 2^56, slightly above 1/20.  The source's
tolerance tests run on binary64 values, and 0.05 is not exactly
representable, so this stored value is the effective band radius. -/
def dbl005 : ℚ := 3602879701896397 / 72057594037927936

/-- Tolerance-band harmonic decision of `run_one` (c5_analysis.py:217-225):
half when `abs(period_ratio - 0.5) <= 0.05`, double when
`abs(period_ratio - 2.0) <= 0.05`, with the corresponding `extra_sig` count.
The binary64 semantics of the source is preserved exactly on every binary64
ratio value (each such value is a rational): 0.5 and 2.0 are exactly
representable; for a double `r` in [0.25, 1] the machine difference `r - 0.5`
is exact by Sterbenz's lemma (likewise `r - 2.0` for `r` in [1, 4]), and for
`r` outside that range the true distance exceeds 0.25 while rounding the
difference perturbs it by at most one part in 2^53, so the comparison against
the stored double `dbl005` decides identically to this exact comparison. -/
def harmBase (periodRatio : ℚ) (k : ℕ) : HarmType × ℤ :=
  if |periodRatio - 1/2| ≤ dbl005 then (HarmType.half, (k : ℤ) - 2)
  else if |periodRatio - 2| ≤ dbl005 then (HarmType.dbl, (k : ℤ) - 2)
  else (HarmType.none, (k : ℤ) - 1)

/-- Harmonic classification block of `run_one` (c5_analysis.py:205-228,
c5_k2sff_analysis.py:172-195): initialized to (`"-"`, 0); when `num_sig > 1`
the period and power ratios of secondary to primary are formed, the tolerance
bands decide the tag and `extra_sig`, and the "maybe" qualifier is appended
when a tag was assigned and `power_ratio > 0.5` (0.5 is exactly representable,
so that comparison is exact on doubles).  The quotients are formed exactly
here where binary64 rounds them; boundary-sensitive statements below feed the
ratio value directly through an exactly-representable divisor of 1. -/
def classifyHarm (numSig : ℕ) (msPeriod msPower secPeriod secPower : ℚ) :
    HarmType × ℤ :=
  if 1 < numSig then
    let periodRatio := secPeriod / msPeriod
    let powerRatio := secPower / msPower
    let hb := harmBase periodRatio numSig
    let h := if hb.1 ≠ HarmType.none ∧ 1/2 < powerRatio then addMaybe hb.1
             else hb.1
    (h, hb.2)
  else
    (HarmType.none, 0)

/-- Result record returned by `run_one`. -/
structure RunOneResult where
  fundPeriod : ℚ
  fundPower : ℚ
  msPeriod : ℚ
  msPower : ℚ
  secPeriod : ℚ
  secPower : ℚ
  threshold : ℚ
  extraSig : ℤ
  harmType : HarmType
deriving Repr, DecidableEq

/-- Record computed by `run_one` (c5_analysis.py:112-261,
c5_k2sff_analysis.py:86-228) on its non-raising paths, after the external
periodogram collaborator has produced the trial-period grid `periods`, the
power array `power`, the fundamental period/power and the bootstrap threshold
`sigma` (plot calls are side-effect free and omitted).  `bound = none` gives
the c5_analysis.py variant, `bound = some 35` the c5_k2sff_analysis.py
variant. -/
def run_one_core (periods power : List ℚ) (fundPeriod fundPower sigma : ℚ)
    (bound : Option ℚ) : RunOneResult :=
  let peakLocs := argrelextrema power 100
  let sLocs := sigLocs peakLocs power periods sigma bound
  let sigPeriods := fancyIndex periods sLocs
  let sigPowers := fancyIndex power sLocs
  let numSig := sLocs.length
  let r := rankPeaks sigPeriods sigPowers
  let ce := classifyHarm numSig r.msPeriod r.msPower r.secPeriod r.secPower
  ⟨fundPeriod, fundPower, r.msPeriod, r.msPower, r.secPeriod, r.secPower,
   sigma, ce.2, ce.1⟩

/-- Full `run_one`, including its raising statement: right after the peak
search, c5_analysis.py:161 / c5_k2sff_analysis.py:136 execute
`print(len(peak_locs), periods_to_test[np.argmax(peak_locs)])`, and
`np.argmax` of the empty peak-index array raises ValueError, so `run_one`
fails (modelled as `none`) whenever `argrelextrema` returns no indices; on a
nonempty peak array the argmax of the index array is a valid position into
the period grid and the print has no effect on the result. -/
def run_one (periods power : List ℚ) (fundPeriod fundPower sigma : ℚ)
    (bound : Option ℚ) : Option RunOneResult :=
  if argrelextrema power 100 = [] then Option.none
  else some (run_one_core periods power fundPeriod fundPower sigma bound)

/-- The candidate aperture extensions `np.arange(2, 21, 1)` = `[2, ..., 20]`. -/
def extensions : List ℕ := List.range' 2 19

/-- Aperture selection of `choose_initial_k2sff` in c5_k2sff_analysis.py:61-84
as a function of the per-extension maximum periodogram powers (one entry per
extension 2..20, in iteration order): `peak_power` is indexed by the enumerate
counter `i`, and `extensions[np.argmax(peak_power)]` is returned. -/
def choose_initial_k2sff_sff (maxPowers : List ℚ) : ℕ :=
  extensions.getD (npArgmax maxPowers) 0

/-- Aperture selection of `choose_initial_k2sff` in c5_analysis.py:89-110 as a
function of the same per-extension maximum powers: `peak_power = np.zeros(21)`
is indexed by the extension number itself (slots 0 and 1 stay 0), and
`np.arange(2, 21, 1)[np.argmax(peak_power)]` indexes the 19-element arange
with an argmax taken over all 21 slots; `none` models the IndexError numpy
raises when that argmax is 19 or 20. -/
def choose_initial_k2sff_c5 (maxPowers : List ℚ) : Option ℕ :=
  extensions[npArgmax ((0 : ℚ) :: (0 : ℚ) :: maxPowers)]?

/-- Concrete per-extension maximum powers (one entry per extension 2..20) in
which extension 4 (list index 2) carries the largest power. -/
def c1FailPowers : List ℚ := [1, 1, 9] ++ List.replicate 16 1

/-- Concrete per-extension maximum powers whose largest power sits at the last
extension, 20 (list index 18). -/
def c1TailPowers : List ℚ := List.replicate 18 1 ++ [9]

/-- Concrete power array of length 201 whose unique global maximum is at
index 0. -/
def c4Power : List ℚ := 5 :: List.replicate 200 1

/-- Concrete power array of length 104 with two well-separated relative maxima
(value 5 at index 1, value 4 at index 102). -/
def c9Power : List ℚ := [1, 5] ++ List.replicate 100 1 ++ [4, 1]

/-- Concrete all-positive trial-period grid matching `c9Power` in length. -/
def c9Periods : List ℚ := List.replicate 104 1

/-- Exact value of the binary64 double stored for the literal 0.45 (a period
ratio of "exactly 0.45" in the program is this value). -/
def dbl045 : ℚ := 8106479329266893 / 18014398509481984

/-- Exact value of the binary64 double stored for the literal 0.55. -/
def dbl055 : ℚ := 2476979795053773 / 4503599627370496

/-- Exact value of the binary64 double stored for the literal 0.549999. -/
def dbl0549999 : ℚ := 4953950582908291 / 9007199254740992

/-- Exact value of the binary64 double stored for the literal 0.5500001. -/
def dbl05500001 : ℚ := 4953960490827471 / 9007199254740992

/-! Helper lemmas about the embedded operations. -/

lemma maxOf_mem : ∀ l : List ℚ, l ≠ [] → maxOf l ∈ l
  | [x], _ => by simp [maxOf]
  | x :: y :: xs, _ => by
    have ih := maxOf_mem (y :: xs) (by simp)
    have hm : maxOf (x :: y :: xs) = max x (maxOf (y :: xs)) := rfl
    rcases max_choice x (maxOf (y :: xs)) with h | h
    · rw [hm, h]; exact List.mem_cons_self _ _
    · rw [hm, h]; exact List.mem_cons_of_mem _ ih

lemma le_maxOf : ∀ l : List ℚ, ∀ x ∈ l, x ≤ maxOf l
  | [], x, hx => by cases hx
  | [y], x, hx => by
    rcases List.mem_singleton.mp hx with rfl
    exact le_of_eq rfl
  | y :: z :: xs, x, hx => by
    have hm : maxOf (y :: z :: xs) = max y (maxOf (z :: xs)) := rfl
    rcases List.mem_cons.mp hx with rfl | hx
    · rw [hm]; exact le_max_left _ _
    · rw [hm]; exact le_trans (le_maxOf (z :: xs) x hx) (le_max_right _ _)

lemma npArgmax_lt_length (l : List ℚ) (h : l ≠ []) : npArgmax l < l.length :=
  List.indexOf_lt_length.mpr (maxOf_mem l h)

lemma getD_npArgmax (l : List ℚ) (h : l ≠ []) :
    l.getD (npArgmax l) 0 = maxOf l := by
  rw [List.getD_eq_getElem l 0 (npArgmax_lt_length l h)]
  exact List.getElem_indexOf _

lemma getD_mem (l : List ℚ) (i : ℕ) (h : i < l.length) : l.getD i 0 ∈ l := by
  rw [List.getD_eq_getElem l 0 h]
  exact List.getElem_mem h

lemma relMaxAt_iff (power : List ℚ) (order i : ℕ) :
    relMaxAt power order i = true ↔
      ∀ s < order, takeClip power (i + (s + 1)) < takeClip power i ∧
        takeClip power (i - (s + 1)) < takeClip power i := by
  unfold relMaxAt
  rw [List.all_eq_true]
  constructor
  · intro h s hs
    have := h s (List.mem_range.mpr hs)
    simpa [Bool.and_eq_true, decide_eq_true_iff] using this
  · intro h s hs
    have := h s (List.mem_range.mp hs)
    simp [Bool.and_eq_true, decide_eq_true_iff, this.1, this.2]

lemma takeClip_eq_getD (power : List ℚ) (j : ℕ) (hj : j < power.length) :
    takeClip power j = power.getD j 0 := by
  unfold takeClip
  congr 1
  omega

lemma mem_argrelextrema_iff (power : List ℚ) (order i : ℕ) (hord : 1 ≤ order) :
    i ∈ argrelextrema power order ↔
      0 < i ∧ i + 1 < power.length ∧
        ∀ j < power.length, j ≠ i → i ≤ j + order → j ≤ i + order →
          power.getD j 0 < power.getD i 0 := by
  unfold argrelextrema
  rw [List.mem_filter, List.mem_range, relMaxAt_iff]
  constructor
  · rintro ⟨hin, hR⟩
    obtain ⟨h0p, h0m⟩ := hR 0 (by omega)
    have hi0 : 0 < i := by
      rcases Nat.eq_zero_or_pos i with rfl | h
      · exact absurd h0m (by simp)
      · exact h
    have hin2 : i + 1 < power.length := by
      by_contra h
      push_neg at h
      have e1 : min (i + (0 + 1)) (power.length - 1) = i := by omega
      have e2 : min i (power.length - 1) = i := by omega
      have hc := h0p
      unfold takeClip at hc
      rw [e1, e2] at hc
      exact lt_irrefl _ hc
    refine ⟨hi0, hin2, ?_⟩
    intro j hj hne h1 h2
    rcases Nat.lt_or_ge j i with hji | hij
    · have hs : i - j - 1 < order := by omega
      obtain ⟨_, hm⟩ := hR (i - j - 1) hs
      have e1 : i - (i - j - 1 + 1) = j := by omega
      rw [e1, takeClip_eq_getD power j (by omega),
        takeClip_eq_getD power i (by omega)] at hm
      exact hm
    · have hij' : i < j := lt_of_le_of_ne hij (Ne.symm hne)
      have hs : j - i - 1 < order := by omega
      obtain ⟨hp, _⟩ := hR (j - i - 1) hs
      have e1 : i + (j - i - 1 + 1) = j := by omega
      rw [e1, takeClip_eq_getD power j hj,
        takeClip_eq_getD power i (by omega)] at hp
      exact hp
  · rintro ⟨hi0, hin2, hall⟩
    refine ⟨by omega, ?_⟩
    intro s hs
    constructor
    · unfold takeClip
      have e2 : min i (power.length - 1) = i := by omega
      rw [e2]
      exact hall (min (i + (s + 1)) (power.length - 1)) (by omega) (by omega)
        (by omega) (by omega)
    · unfold takeClip
      have e2 : min i (power.length - 1) = i := by omega
      have e1 : min (i - (s + 1)) (power.length - 1) = i - (s + 1) := by omega
      rw [e1, e2]
      exact hall (i - (s + 1)) (by omega) (by omega) (by omega) (by omega)

lemma mem_argrelextrema_lt (power : List ℚ) (order i : ℕ)
    (h : i ∈ argrelextrema power order) : i < power.length := by
  unfold argrelextrema at h
  exact List.mem_range.mp (List.mem_filter.mp h).1

lemma maskSelect_map (p : ℕ → Bool) : ∀ locs : List ℕ,
    maskSelect locs (locs.map p) = locs.filter p
  | [] => rfl
  | x :: xs => by
    simp only [List.map_cons, maskSelect, List.filter_cons]
    by_cases h : p x <;> simp [h, maskSelect_map p xs]

lemma sigLocs_eq_filter (locs : List ℕ) (power periods : List ℚ) (sigma : ℚ)
    (bound : Option ℚ) :
    sigLocs locs power periods sigma bound =
      locs.filter (sigPred power periods sigma bound) := by
  cases bound with
  | none =>
    unfold sigLocs fancyIndex
    rw [List.map_map, maskSelect_map]
    refine List.filter_congr ?_
    intro i _
    simp [sigPred, Function.comp]
  | some b =>
    show maskSelect locs
        (((fancyIndex power locs).zip (fancyIndex periods locs)).map
          fun pw => decide (sigma < pw.1) && decide (pw.2 < b)) = _
    unfold fancyIndex
    rw [List.zip_map', List.map_map, maskSelect_map]
    refine List.filter_congr ?_
    intro i _
    simp [sigPred, Function.comp]

lemma mem_sigLocs (locs : List ℕ) (power periods : List ℚ) (sigma : ℚ)
    (bound : Option ℚ) (i : ℕ) :
    i ∈ sigLocs locs power periods sigma bound ↔
      i ∈ locs ∧ sigma < power.getD i 0 ∧
        ∀ b, bound = some b → periods.getD i 0 < b := by
  rw [sigLocs_eq_filter, List.mem_filter]
  cases bound <;> simp [sigPred, and_assoc]

lemma rankPeaks_eq2 (sigPeriods sigPowers : List ℚ)
    (hk : 1 < sigPowers.length) :
    rankPeaks sigPeriods sigPowers =
      ⟨sigPeriods.getD (npArgmax sigPowers) 0,
       sigPowers.getD (npArgmax sigPowers) 0,
       (sigPeriods.eraseIdx (npArgmax sigPowers)).getD
         (npArgmax (sigPowers.eraseIdx (npArgmax sigPowers))) 0,
       (sigPowers.eraseIdx (npArgmax sigPowers)).getD
         (npArgmax (sigPowers.eraseIdx (npArgmax sigPowers))) 0⟩ := by
  unfold rankPeaks
  rw [if_pos (by omega : 0 < sigPowers.length), if_pos hk]

lemma classifyHarm_eq (k : ℕ) (a b c d : ℚ) (hk : 1 < k) :
    classifyHarm k a b c d =
      (if (harmBase (c / a) k).1 ≠ HarmType.none ∧ 1/2 < d / b
         then addMaybe (harmBase (c / a) k).1 else (harmBase (c / a) k).1,
       (harmBase (c / a) k).2) := by
  unfold classifyHarm
  rw [if_pos hk]

lemma classifyHarm_lt2 (k : ℕ) (a b c d : ℚ) (hk : k < 2) :
    classifyHarm k a b c d = (HarmType.none, 0) := by
  unfold classifyHarm
  rw [if_neg (by omega)]

lemma fancyIndex_length (arr : List ℚ) (idxs : List ℕ) :
    (fancyIndex arr idxs).length = idxs.length := List.length_map _ _

lemma mem_fancyIndex (arr : List ℚ) (idxs : List ℕ) (x : ℚ)
    (h : x ∈ fancyIndex arr idxs) : ∃ i ∈ idxs, arr.getD i 0 = x := by
  unfold fancyIndex at h
  exact List.mem_map.mp h

lemma rankPeaks_sec_le_ms (sigPeriods sigPowers : List ℚ)
    (hk : 2 ≤ sigPowers.length) :
    (rankPeaks sigPeriods sigPowers).secPower ≤
      (rankPeaks sigPeriods sigPowers).msPower := by
  rw [rankPeaks_eq2 _ _ (by omega)]
  have hne : sigPowers ≠ [] := by
    intro h
    rw [h] at hk
    simp at hk
  have hm : npArgmax sigPowers < sigPowers.length := npArgmax_lt_length _ hne
  have hlen : (sigPowers.eraseIdx (npArgmax sigPowers)).length =
      sigPowers.length - 1 := by
    rw [List.length_eraseIdx, if_pos hm]
  have hne2 : sigPowers.eraseIdx (npArgmax sigPowers) ≠ [] := by
    intro h
    rw [h] at hlen
    simp at hlen
    omega
  have hs := npArgmax_lt_length _ hne2
  have hmem := getD_mem _ _ hs
  have hmem2 := (List.eraseIdx_sublist sigPowers (npArgmax sigPowers)).subset hmem
  calc (sigPowers.eraseIdx (npArgmax sigPowers)).getD
        (npArgmax (sigPowers.eraseIdx (npArgmax sigPowers))) 0
      ≤ maxOf sigPowers := le_maxOf _ _ hmem2
    _ = sigPowers.getD (npArgmax sigPowers) 0 := (getD_npArgmax _ hne).symm

lemma classifyHarm_ge2 (k : ℕ) (a b c d : ℚ) (hk : 2 ≤ k) :
    ((classifyHarm k a b c d).1 = HarmType.none ∧
      (classifyHarm k a b c d).2 = (k : ℤ) - 1) ∨
    ((classifyHarm k a b c d).1 ≠ HarmType.none ∧
      (classifyHarm k a b c d).2 = (k : ℤ) - 2) := by
  rw [classifyHarm_eq k a b c d (by omega)]
  unfold harmBase
  split_ifs with h1 h2 h3 h4 h5 <;> simp_all [addMaybe]

/-! Claim theorems. -/

set_option maxRecDepth 10000 in
/-- C1: at the failing input `c1FailPowers` (largest power at extension 4) the
c5_k2sff_analysis.py selector returns extension 4, as the claim states, while
the c5_analysis.py selector returns extension 6; at `c1TailPowers` (largest
power at extension 20) the c5_analysis.py selector raises an IndexError
(modelled as `none`) instead of returning 20. -/
theorem aperture_selector_c5_bug :
    choose_initial_k2sff_sff c1FailPowers = 4 ∧
    choose_initial_k2sff_c5 c1FailPowers = some 6 ∧
    choose_initial_k2sff_sff c1TailPowers = 20 ∧
    choose_initial_k2sff_c5 c1TailPowers = Option.none := by
  decide

/-- C2 counterexample: the strictly rising periodogram [1, 2, 3] has no
relative extremum at all, hence zero peaks above any threshold, yet `run_one`
fails (`none`, the ValueError that `np.argmax` raises on the empty peak-index
array at c5_analysis.py:161 / c5_k2sff_analysis.py:136) instead of returning
the sentinel record. -/
theorem run_one_no_sig_peaks_cex :
    sigLocs (argrelextrema [1, 2, 3] 100) [1, 2, 3] [1, 2, 3] (1/2)
        Option.none = [] ∧
    run_one [1, 2, 3] [1, 2, 3] 1 1 (1/2) Option.none = Option.none := by
  decide

/-- C2 (amended): when the periodogram has at least one relative extremum but
no peak clears the significance threshold (the significance filter returns
the empty index list), `run_one` does not fail: it returns a complete record
in which all four primary/secondary period and power fields hold the sentinel
-9999, the extra-significant count is 0, and the harmonic type is none; with
no relative extrema at all, `run_one` instead raises. -/
theorem run_one_no_sig_peaks (periods power : List ℚ)
    (fundPeriod fundPower sigma : ℚ) (bound : Option ℚ)
    (hne : argrelextrema power 100 ≠ [])
    (h : sigLocs (argrelextrema power 100) power periods sigma bound = []) :
    run_one periods power fundPeriod fundPower sigma bound =
      some ⟨fundPeriod, fundPower, -9999, -9999, -9999, -9999, sigma, 0,
        HarmType.none⟩ := by
  unfold run_one
  rw [if_neg hne]
  simp only [run_one_core]
  rw [h]
  rfl

/-- Witness for C2 at a concrete input: the power array [1, 2, 1] has one
relative extremum but no significant peak at threshold 10, and `run_one`
returns the sentinel record. -/
theorem run_one_no_sig_peaks_witness :
    argrelextrema [1, 2, 1] 100 ≠ [] ∧
    sigLocs (argrelextrema [1, 2, 1] 100) [1, 2, 1] [1, 2, 3] 10
        Option.none = [] ∧
    run_one [1, 2, 3] [1, 2, 1] 5 6 10 Option.none =
      some ⟨5, 6, -9999, -9999, -9999, -9999, 10, 0, HarmType.none⟩ :=
  ⟨by decide, by decide,
   run_one_no_sig_peaks [1, 2, 3] [1, 2, 1] 5 6 10 Option.none (by decide)
     (by decide)⟩

/-- C3 counterexample: with scipy's default clip mode, index 1 of the
3-element array [1, 5, 1] is returned as a peak at order 100 even though the
full window of 100 neighbour positions on each side does not exist around it,
refuting the clause that such edge positions are never returned. -/
theorem peak_extractor_edge_cex :
    1 ∈ argrelextrema [1, 5, 1] 100 ∧ ¬(100 ≤ 1 ∧ 1 + 100 < 3) := by
  decide

/-- C3 (amended): the Peak Extractor returns exactly the indices `i` with
`0 < i < N-1` whose power is strictly greater than the power at every other
existing index within `order` positions to either side; out-of-range neighbour
positions are clipped to the array ends, so near-edge positions other than the
first and last index can be peaks. -/
theorem peak_extractor_characterization (power : List ℚ) (order i : ℕ)
    (hord : 1 ≤ order) :
    i ∈ argrelextrema power order ↔
      0 < i ∧ i + 1 < power.length ∧
        ∀ j < power.length, j ≠ i → i ≤ j + order → j ≤ i + order →
          power.getD j 0 < power.getD i 0 :=
  mem_argrelextrema_iff power order i hord

/-- Witness for C3 at a concrete input: index 1 of [2, 7, 1] is a peak at
order 100. -/
theorem peak_extractor_characterization_witness :
    1 ≤ 100 ∧ 1 ∈ argrelextrema [2, 7, 1] 100 :=
  ⟨by decide,
   (peak_extractor_characterization [2, 7, 1] 100 1 (by decide)).mpr (by decide)⟩

set_option maxRecDepth 100000 in
/-- C4 counterexample: `c4Power` (length 201 > 2*100) has its unique global
maximum at index 0, yet index 0 is not among the peaks returned at order 100,
refuting the claim as stated. -/
theorem global_max_peak_cex :
    (∀ j < c4Power.length, j ≠ 0 → c4Power.getD j 0 < c4Power.getD 0 0) ∧
    2 * 100 < c4Power.length ∧ 0 ∉ argrelextrema c4Power 100 := by
  decide

/-- C4 (amended): whenever the array length exceeds `2*order` (order ≥ 1) and
the unique global maximum sits at an interior index (neither the first nor the
last position), that index is a member of the returned peak set. -/
theorem global_max_in_peaks (power : List ℚ) (order i : ℕ) (hord : 1 ≤ order)
    (hlen : 2 * order < power.length) (hi0 : 0 < i)
    (hin : i + 1 < power.length)
    (hmax : ∀ j < power.length, j ≠ i → power.getD j 0 < power.getD i 0) :
    i ∈ argrelextrema power order := by
  rw [mem_argrelextrema_iff power order i hord]
  exact ⟨hi0, hin, fun j hj hne _ _ => hmax j hj hne⟩

/-- Witness for C4 at a concrete input: index 1 is the unique global maximum
of [1, 6, 2, 1] and is returned at order 1. -/
theorem global_max_in_peaks_witness : 1 ∈ argrelextrema [1, 6, 2, 1] 1 :=
  global_max_in_peaks [1, 6, 2, 1] 1 1 (by decide) (by decide) (by decide)
    (by decide) (by decide)

/-- C5: the significance filter returns exactly the subsequence of the
candidate indices `i` (original order preserved, possibly empty) with
`power[i] > threshold * scale` and, when an upper period bound is present,
`period_grid[i] < bound`; it never reorders the surviving indices. -/
theorem sig_filter_characterization (locs : List ℕ) (power periods : List ℚ)
    (threshold scale : ℚ) (bound : Option ℚ) :
    sigLocs locs power periods (threshold * scale) bound =
      locs.filter (sigPred power periods (threshold * scale) bound) ∧
    (sigLocs locs power periods (threshold * scale) bound).Sublist locs ∧
    ∀ i, i ∈ sigLocs locs power periods (threshold * scale) bound ↔
      i ∈ locs ∧ threshold * scale < power.getD i 0 ∧
        ∀ b, bound = some b → periods.getD i 0 < b := by
  refine ⟨sigLocs_eq_filter .., ?_, fun i => mem_sigLocs ..⟩
  rw [sigLocs_eq_filter]
  exact List.filter_sublist _

/-- C6: for significant-peak sets with at least two peaks, the secondary power
selected by the peak ranker never exceeds the primary power. -/
theorem primary_ge_secondary (sigPeriods sigPowers : List ℚ)
    (hk : 2 ≤ sigPowers.length) :
    (rankPeaks sigPeriods sigPowers).secPower ≤
      (rankPeaks sigPeriods sigPowers).msPower :=
  rankPeaks_sec_le_ms sigPeriods sigPowers hk

/-- Witness for C6 at a concrete input of two peaks with powers 3 and 5. -/
theorem primary_ge_secondary_witness :
    2 ≤ ([3, 5] : List ℚ).length ∧
    (rankPeaks [1, 2] [3, 5]).secPower ≤ (rankPeaks [1, 2] [3, 5]).msPower :=
  ⟨by decide, primary_ge_secondary [1, 2] [3, 5] (by decide)⟩

/-- C7: with k ≥ 2 significant peaks, the extra-significant count equals k - 2
exactly when the harmonic type is not none and k - 1 otherwise; with k < 2 the
harmonic type is none and the count is 0. -/
theorem extra_sig_harm_relation (k : ℕ) (a b c d : ℚ) :
    (2 ≤ k →
      (((classifyHarm k a b c d).2 = (k : ℤ) - 2 ↔
         (classifyHarm k a b c d).1 ≠ HarmType.none) ∧
       ((classifyHarm k a b c d).1 = HarmType.none →
         (classifyHarm k a b c d).2 = (k : ℤ) - 1))) ∧
    (k < 2 →
      (classifyHarm k a b c d).1 = HarmType.none ∧
      (classifyHarm k a b c d).2 = 0) := by
  constructor
  · intro hk
    rcases classifyHarm_ge2 k a b c d hk with ⟨h1, h2⟩ | ⟨h1, h2⟩
    · refine ⟨?_, fun _ => h2⟩
      rw [h2]
      exact ⟨fun he => absurd he (by omega), fun hne => absurd h1 hne⟩
    · refine ⟨?_, fun h => absurd h h1⟩
      rw [h2]
      exact ⟨fun _ => h1, fun _ => rfl⟩
  · intro hk
    rw [classifyHarm_lt2 k a b c d hk]
    exact ⟨rfl, rfl⟩

/-- Witness for C7: a half-harmonic pair with k = 2 has count 0 = k - 2, and
k = 0 yields harmonic type none. -/
theorem extra_sig_harm_relation_witness :
    (classifyHarm 2 2 1 1 0).2 = (2 : ℤ) - 2 ∧
    (classifyHarm 0 2 1 1 0).1 = HarmType.none :=
  ⟨((extra_sig_harm_relation 2 2 1 1 0).1 (by decide)).1.mpr
      (by norm_num [classifyHarm, harmBase, addMaybe, abs_le, dbl005] <;>
        decide),
   ((extra_sig_harm_relation 0 2 1 1 0).2 (by decide)).1⟩

/-- C8 counterexample: a period ratio of exactly 0.55 — `dbl055`, the
binary64 value the program stores for that literal — does not classify as
half: in binary64 `abs(0.55 - 0.5) <= 0.05` is False, since the (exact)
difference 0.0500000000000000444... exceeds the stored double 0.05, refuting
the claim at its upper boundary point. -/
theorem half_band_boundary_cex :
    (classifyHarm 2 1 1 dbl055 0).1 ≠ HarmType.half ∧
    (classifyHarm 2 1 1 dbl055 0).1 ≠ HarmType.halfMaybe := by
  norm_num [classifyHarm, harmBase, addMaybe, abs_le, dbl005, dbl055] <;>
    decide

/-- C8 (amended): under the program's binary64 arithmetic the half band is
decided by the inclusive comparison `|ratio - 0.5| <= fl(0.05)`, whose
effective radius `fl(0.05)` lies slightly above 1/20 (the subtractions are
exact for these values): period ratios of exactly 0.45 and 0.549999 classify
as half, while exactly 0.55 and 0.5500001 do not — the double stored for 0.55
lies one unit in the last place beyond the stored band radius. -/
theorem half_band_boundary :
    (classifyHarm 2 1 1 dbl045 0).1 = HarmType.half ∧
    (classifyHarm 2 1 1 dbl0549999 0).1 = HarmType.half ∧
    (classifyHarm 2 1 1 dbl055 0).1 = HarmType.none ∧
    (classifyHarm 2 1 1 dbl05500001 0).1 = HarmType.none := by
  norm_num [classifyHarm, harmBase, addMaybe, abs_le, dbl005, dbl045,
    dbl055, dbl0549999, dbl05500001]

/-- C9: the ratio divisions of the harmonic classifier are reached only when
at least two significant peaks survive the filter; on that path `run_one`
does not raise (at least one raw peak exists, so the peak-printing argmax has
a nonempty array), and the divisors (primary period and primary power) of the
returned record are strictly positive and differ from the sentinel -9999,
given a strictly positive trial-period grid of the same length as the power
array and a non-negative threshold. -/
theorem division_inputs_positive (periods power : List ℚ)
    (fundPeriod fundPower sigma : ℚ) (bound : Option ℚ)
    (hlen : periods.length = power.length)
    (hpos : ∀ p ∈ periods, 0 < p) (hsig : 0 ≤ sigma)
    (hk : 2 ≤ (sigLocs (argrelextrema power 100) power periods sigma
      bound).length) :
    run_one periods power fundPeriod fundPower sigma bound =
      some (run_one_core periods power fundPeriod fundPower sigma bound) ∧
    0 < (run_one_core periods power fundPeriod fundPower sigma
      bound).msPeriod ∧
    0 < (run_one_core periods power fundPeriod fundPower sigma
      bound).msPower ∧
    (run_one_core periods power fundPeriod fundPower sigma bound).msPeriod ≠
      -9999 ∧
    (run_one_core periods power fundPeriod fundPower sigma bound).msPower ≠
      -9999 := by
  have hne : argrelextrema power 100 ≠ [] := by
    intro hnil
    rw [hnil, sigLocs_eq_filter] at hk
    simp at hk
  refine ⟨by unfold run_one; rw [if_neg hne], ?_⟩
  simp only [run_one_core]
  set sL := sigLocs (argrelextrema power 100) power periods sigma bound
    with hsLdef
  have h2 : 1 < (fancyIndex power sL).length := by
    rw [fancyIndex_length]
    omega
  rw [rankPeaks_eq2 _ _ h2]
  set m := npArgmax (fancyIndex power sL)
  have hm : m < (fancyIndex power sL).length := by
    apply npArgmax_lt_length
    intro hnil
    rw [hnil] at h2
    simp at h2
  have hmq : m < (fancyIndex periods sL).length := by
    rw [fancyIndex_length] at hm ⊢
    exact hm
  have hWpos : 0 < (fancyIndex power sL).getD m 0 := by
    obtain ⟨i, hi, he⟩ := mem_fancyIndex _ _ _ (getD_mem _ _ hm)
    rw [hsLdef] at hi
    have hgt := ((mem_sigLocs _ _ _ _ _ i).mp hi).2.1
    rw [← he]
    exact lt_of_le_of_lt hsig hgt
  have hPpos : 0 < (fancyIndex periods sL).getD m 0 := by
    obtain ⟨i, hi, he⟩ := mem_fancyIndex _ _ _ (getD_mem _ _ hmq)
    rw [hsLdef] at hi
    have hil := mem_argrelextrema_lt _ _ _ ((mem_sigLocs _ _ _ _ _ i).mp hi).1
    rw [← he]
    exact hpos _ (getD_mem _ _ (by omega))
  refine ⟨hPpos, hWpos, ?_, ?_⟩
  · intro h
    have h9 : (fancyIndex periods sL).getD m 0 = -9999 := h
    rw [h9] at hPpos
    norm_num at hPpos
  · intro h
    have h9 : (fancyIndex power sL).getD m 0 = -9999 := h
    rw [h9] at hWpos
    norm_num at hWpos

set_option maxRecDepth 100000 in
/-- Witness for C9 at a concrete periodogram (`c9Power`, threshold 2) with two
significant peaks: `run_one` returns a record whose primary divisors are
strictly positive. -/
theorem division_inputs_positive_witness :
    run_one c9Periods c9Power 3 5 2 Option.none =
      some (run_one_core c9Periods c9Power 3 5 2 Option.none) ∧
    0 < (run_one_core c9Periods c9Power 3 5 2 Option.none).msPeriod ∧
    0 < (run_one_core c9Periods c9Power 3 5 2 Option.none).msPower ∧
    (run_one_core c9Periods c9Power 3 5 2 Option.none).msPeriod ≠ -9999 ∧
    (run_one_core c9Periods c9Power 3 5 2 Option.none).msPower ≠ -9999 :=
  division_inputs_positive c9Periods c9Power 3 5 2 Option.none
    (by decide)
    (fun p hp => by
      simp only [c9Periods, List.mem_replicate] at hp
      rw [hp.2]
      norm_num)
    (by norm_num)
    (by decide)

/-- C10: whenever `run_one` returns a record, its extra-significant count is
non-negative and bounded by max(k-1, 0) where k is the number of significant
peaks: it is 0 when k ≤ 1, k - 2 when a harmonic type is assigned (which only
happens with k ≥ 2), and k - 1 when k ≥ 2 with no harmonic type. -/
theorem extra_sig_invariant (periods power : List ℚ)
    (fundPeriod fundPower sigma : ℚ) (bound : Option ℚ) (r : RunOneResult)
    (hr : run_one periods power fundPeriod fundPower sigma bound = some r) :
    0 ≤ r.extraSig ∧
    r.extraSig ≤
      max (((sigLocs (argrelextrema power 100) power periods sigma
        bound).length : ℤ) - 1) 0 ∧
    ((sigLocs (argrelextrema power 100) power periods sigma bound).length ≤
        1 →
      r.extraSig = 0) ∧
    (r.harmType ≠ HarmType.none →
      2 ≤ (sigLocs (argrelextrema power 100) power periods sigma
        bound).length ∧
      r.extraSig =
        ((sigLocs (argrelextrema power 100) power periods sigma
          bound).length : ℤ) - 2) ∧
    (2 ≤ (sigLocs (argrelextrema power 100) power periods sigma
        bound).length →
      r.harmType = HarmType.none →
      r.extraSig =
        ((sigLocs (argrelextrema power 100) power periods sigma
          bound).length : ℤ) - 1) := by
  unfold run_one at hr
  by_cases hne : argrelextrema power 100 = []
  · rw [if_pos hne] at hr
    exact Option.noConfusion hr
  · rw [if_neg hne] at hr
    injection hr with hr
    subst hr
    simp only [run_one_core]
    set sL := sigLocs (argrelextrema power 100) power periods sigma bound
    set rk := rankPeaks (fancyIndex periods sL) (fancyIndex power sL)
    rcases Nat.lt_or_ge sL.length 2 with hk | hk
    · rw [classifyHarm_lt2 _ _ _ _ _ hk]
      exact ⟨le_refl 0, le_max_right _ _, fun _ => rfl,
        fun hh => absurd rfl hh, fun h2 _ => absurd h2 (by omega)⟩
    · rcases classifyHarm_ge2 sL.length rk.msPeriod rk.msPower rk.secPeriod
          rk.secPower hk with ⟨h1, h2⟩ | ⟨h1, h2⟩
      · refine ⟨?_, ?_, ?_, ?_, ?_⟩
        · rw [h2]
          omega
        · rw [h2]
          omega
        · intro hle
          exact absurd hle (by omega)
        · intro hh
          exact absurd h1 hh
        · intro _ _
          exact h2
      · refine ⟨?_, ?_, ?_, ?_, ?_⟩
        · rw [h2]
          omega
        · rw [h2]
          omega
        · intro hle
          exact absurd hle (by omega)
        · intro _
          exact ⟨hk, h2⟩
        · intro _ hnone
          exact absurd hnone h1

/-- Witness for C10 at a concrete input with zero significant peaks:
`run_one` returns a record whose extra-significant count is 0. -/
theorem extra_sig_invariant_witness :
    run_one [1, 2, 3] [1, 3, 1] 4 5 10 Option.none =
      some ⟨4, 5, -9999, -9999, -9999, -9999, 10, 0, HarmType.none⟩ ∧
    (⟨4, 5, -9999, -9999, -9999, -9999, 10, 0, HarmType.none⟩ :
      RunOneResult).extraSig = 0 :=
  ⟨by decide,
   (extra_sig_invariant [1, 2, 3] [1, 3, 1] 4 5 10 Option.none
     ⟨4, 5, -9999, -9999, -9999, -9999, 10, 0, HarmType.none⟩
     (by decide)).2.2.1 (by decide)⟩

end PraesepeK2
